import Mathlib

/-!
Verification of the parallel-map engine in pyblaze/multiprocessing/vectorize.py
(class Vectorizer and its worker functions).

The embedding is deterministic and total.  Python exceptions are modelled by
Except / error outcomes; a main thread that blocks forever on a queue read
(for example because the producing worker process died without putting
anything) is modelled by the explicit outcome Outcome.hang.  The only
nondeterminism of the source, the item-to-worker assignment of the dynamic
consumer mode, is made explicit as a function argument.
-/

namespace Vectorize

/-- Python values, as far as the argument-merging logic of vectorize.py can
distinguish them: a tuple, or any non-tuple value (modelled as a numeric
atom).  This is the discrimination performed by isinstance(b, tuple) in
_combine_args (vectorize.py line 248). -/
inductive PyVal where
  | atom : Nat → PyVal
  | tup : List PyVal → PyVal

/-- The isinstance(b, tuple) test of _combine_args (vectorize.py line 248). -/
def isTup : PyVal → Bool
  | PyVal.tup _ => true
  | PyVal.atom _ => false

/-- _combine_args(a, b) (vectorize.py lines 245-250): b is the value returned
by _init_if_needed, which is None, a tuple, or a plain value.  None adds
nothing, a tuple is concatenated element-wise, anything else is appended as a
single trailing element. -/
def combine_args (a : List PyVal) : Option PyVal → List PyVal
  | none => a
  | some (PyVal.tup xs) => a ++ xs
  | some (PyVal.atom v) => a ++ [PyVal.atom v]

/-- _init_if_needed(init, rank, **kwargs) (vectorize.py lines 239-242).
The keyword arguments passed at construction are folded into the modelled
init function, which may itself return None. -/
def init_if_needed (init : Option (Nat → Option PyVal)) (rank : Nat) : Option PyVal :=
  match init with
  | none => none
  | some g => g rank

/-- A Python for-loop building a result list from a fallible body, stopping at
the first raised exception (used for the worker loops and the sequential loop
of Vectorizer.process). -/
def mapExcept (g : γ → Except ε δ) : List γ → Except ε (List δ)
  | [] => Except.ok []
  | x :: xs =>
    match g x with
    | Except.error e => Except.error e
    | Except.ok y =>
      match mapExcept g xs with
      | Except.error e => Except.error e
      | Except.ok ys => Except.ok (y :: ys)

/-- Like mapExcept but the body also receives a running index, mirroring the
rank loop `for i in range(self.num_workers)` and the item index counter of
_process_consumers. -/
def mapExceptIdx (g : Nat → γ → Except ε δ) : Nat → List γ → Except ε (List δ)
  | _, [] => Except.ok []
  | i, x :: xs =>
    match g i x with
    | Except.error e => Except.error e
    | Except.ok y =>
      match mapExceptIdx g (i + 1) xs with
      | Except.error e => Except.error e
      | Except.ok ys => Except.ok (y :: ys)

/-- A Python list comprehension over a fallible body, stopping at the first
raised exception (used for `[a[-1] + 1 for a in splits]`, vectorize.py
line 87, whose body raises IndexError on an empty array). -/
def mapOption (g : γ → Option δ) : List γ → Option (List δ)
  | [] => some []
  | x :: xs =>
    match g x with
    | none => none
    | some y =>
      match mapOption g xs with
      | none => none
      | some ys => some (y :: ys)

/-- The contiguous index range [c, c + s), i.e. one chunk of np.arange(n). -/
def sliceIdx (c : Nat) : Nat → List Nat
  | 0 => []
  | s + 1 => c :: sliceIdx (c + 1) s

/-- The chunk sizes produced by np.array_split(np.arange(n), w)
(vectorize.py line 86).  Per the numpy documentation, an array of length n
split into w sections gives n % w sub-arrays of size n / w + 1 followed by
the rest of size n / w. -/
def splitSizes (n w : Nat) : List Nat :=
  List.replicate (n % w) (n / w + 1) ++ List.replicate (w - n % w) (n / w)

/-- The contiguous chunks starting at offset c with the given sizes. -/
def chunksFrom (c : Nat) : List Nat → List (List Nat)
  | [] => []
  | s :: ss => sliceIdx c s :: chunksFrom (c + s) ss

/-- np.array_split(np.arange(n), w) (vectorize.py line 86): the list of
contiguous index chunks. -/
def arraySplit (n w : Nat) : List (List Nat) :=
  chunksFrom 0 (splitSizes n w)

/-- splits = [0] + [a[-1] + 1 for a in splits] (vectorize.py line 87).
a[-1] on an empty numpy array raises IndexError, modelled by none. -/
def splitBoundaries (n w : Nat) : Option (List Nat) :=
  match mapOption List.getLast? (arraySplit n w) with
  | none => none
  | some lasts => some (0 :: lasts.map (· + 1))

/-- The exclusive right ends of contiguous chunks starting at offset c with
the given sizes (the value of splitBoundaries when no chunk is empty). -/
def boundsFrom (c : Nat) : List Nat → List Nat
  | [] => []
  | s :: ss => (c + s) :: boundsFrom (c + s) ss

/-- The last index of each contiguous chunk starting at offset c (the value
of `[a[-1] for a in splits]` when no chunk is empty). -/
def lastsFrom (c : Nat) : List Nat → List Nat
  | [] => []
  | s :: ss => (c + s - 1) :: lastsFrom (c + s) ss

/-- The slices of a list cut at offset c with the given sizes;
what `items[splits[i]:splits[i+1]]` (vectorize.py line 106) hands to the
workers. -/
def itemChunksFrom (c : Nat) (xs : List α) : List Nat → List (List α)
  | [] => []
  | s :: ss => (xs.drop c).take s :: itemChunksFrom (c + s) xs ss

/-- result.extend(q.get()) over the per-worker bundles in rank order
(vectorize.py lines 124-125). -/
def concatAll : List (List α) → List α
  | [] => []
  | l :: ls => l ++ concatAll ls

/-- Outcome of a call to Vectorizer.process:
ok carries the returned list and the number of times callback_func was
invoked on the main thread; err is a raised Python exception; hang means the
main thread blocks forever on a queue read (the producing worker died without
putting anything, so the call never returns). -/
inductive Outcome (β : Type) where
  | ok : List β → Nat → Outcome β
  | err : String → Outcome β
  | hang : Outcome β
deriving DecidableEq

/-- The computation performed by _batch_worker (vectorize.py lines 203-219):
_init_if_needed once with the worker rank, _combine_args once, then the worker
function applied to every item of the shard with that one merged argument
list.  A raised exception kills the worker before it pushes its bundle. -/
def batchWorkerBundle (f : α → List PyVal → Except String β)
    (init : Option (Nat → Option PyVal)) (args : List PyVal)
    (rank : Nat) (shard : List α) : Except String (List β) :=
  mapExcept (fun it => f it (combine_args args (init_if_needed init rank))) shard

/-- Vectorizer._process_batches (vectorize.py lines 83-128).
A non-positive worker count makes np.array_split raise ValueError; an empty
chunk makes line 87 raise IndexError (both before any process is spawned).
Otherwise worker i gets the slice of items between consecutive boundaries and
rank i.  If every worker succeeds the main thread consumes one tick per item
(invoking callback_func num_items times when configured, lines 119-122) and
concatenates the bundles in rank order; if any worker raises, that worker
never fills its tick/result queue and the main thread blocks forever. -/
def batchRun (f : α → List PyVal → Except String β)
    (init : Option (Nat → Option PyVal)) (cb : Bool) (args : List PyVal)
    (items : List α) (nw : Int) : Outcome β :=
  if nw ≤ 0 then Outcome.err "ValueError"
  else
    match splitBoundaries items.length nw.toNat with
    | none => Outcome.err "IndexError"
    | some bounds =>
      let shards := (bounds.zip bounds.tail).map
        (fun p => (items.drop p.1).take (p.2 - p.1))
      match mapExceptIdx (fun rank shard => batchWorkerBundle f init args rank shard) 0 shards with
      | Except.ok bundles =>
        Outcome.ok (concatAll bundles) (if cb then items.length else 0)
      | Except.error _ => Outcome.hang

/-- The sequential branch of Vectorizer.process (vectorize.py lines 63-69):
init once with rank 0, one merged argument list, then a plain loop appending
worker_func(item, *all_args).  The loop body contains no call to
callback_func, so a successful run reports 0 callback invocations; a raised
exception propagates directly to the caller. -/
def seqRun (f : α → List PyVal → Except String β)
    (init : Option (Nat → Option PyVal)) (cb : Bool) (args : List PyVal)
    (items : List α) : Outcome β :=
  match mapExcept (fun it => f it (combine_args args (init_if_needed init 0))) items with
  | Except.ok res => Outcome.ok res 0
  | Except.error e => Outcome.err e

/-- Vectorizer._process_consumers (vectorize.py lines 134-184).
asg is the item-to-worker assignment chosen by the nondeterministic queue
scheduling: item idx is executed by the worker of rank asg idx, with the
argument list that worker merged once at start-up.  Results carry their
original index and are sorted by it at the end (line 184); since the indices
are dense this yields exactly the input order, so the model produces them in
order directly.  When the worker count is not positive, no worker is started,
nothing is primed and the first pull_queue.get() blocks forever.  If any
assigned computation raises, the executing worker dies, its result never
arrives and the main thread blocks forever on pull_queue.get(); a successful
run invokes callback_func once per received result (lines 169-170 and
181-182), i.e. once per item. -/
def consumerRun (f : α → List PyVal → Except String β)
    (init : Option (Nat → Option PyVal)) (cb : Bool) (args : List PyVal)
    (items : List α) (nw : Int) (asg : Nat → Nat) : Outcome β :=
  if nw ≤ 0 then Outcome.hang
  else
    match mapExceptIdx (fun idx it => f it (combine_args args (init_if_needed init (asg idx)))) 0 items with
    | Except.ok res => Outcome.ok res (if cb then items.length else 0)
    | Except.error _ => Outcome.hang

/-- The configuration stored by Vectorizer.__init__ (vectorize.py lines
15-42).  callback stores whether callback_func was given; the init keyword
arguments are folded into worker_init. -/
structure Vectorizer (α β : Type) where
  worker_func : α → List PyVal → Except String β
  worker_init : Option (Nat → Option PyVal)
  callback : Bool
  num_workers : Int

/-- Vectorizer.__init__ (vectorize.py lines 15-42): only the sentinel -1 is
replaced by os.cpu_count(); every other value, including negative ones, is
stored verbatim and nothing is validated. -/
def Vectorizer.mkInit (f : α → List PyVal → Except String β)
    (init : Option (Nat → Option PyVal)) (cb : Bool)
    (num_workers : Int) (cpu_count : Nat) : Vectorizer α β :=
  { worker_func := f
    worker_init := init
    callback := cb
    num_workers := if num_workers = -1 then (cpu_count : Int) else num_workers }

/-- Vectorizer.process (vectorize.py lines 45-80).  pending models whether
self._shutdown_fn is still set from a previous run; the body of process never
reads it, which the parameter being unused makes explicit.  indexable models
hasattr(items, "__getitem__"); asg is the dynamic-mode assignment. -/
def Vectorizer.process (v : Vectorizer α β) (pending : Bool) (items : List α)
    (args : List PyVal) (indexable : Bool) (asg : Nat → Nat) : Outcome β :=
  if v.num_workers = 0 then
    seqRun v.worker_func v.worker_init v.callback args items
  else if indexable then
    batchRun v.worker_func v.worker_init v.callback args items v.num_workers
  else
    consumerRun v.worker_func v.worker_init v.callback args items v.num_workers asg

/-- Queue operations of the main thread in _process_consumers: dispatch is
push_queue.put((index, item)), receive is pull_queue.get(). -/
inductive Ev where
  | dispatch
  | receive
deriving DecidableEq

/-- The main loop of _process_consumers after priming (vectorize.py lines
167-183), as the sequence of queue operations of the main thread, given the
number of items not yet pulled from the source.  Each iteration first blocks
for a result, then pulls and dispatches the next item; when the source is
exhausted, the iteration that hit StopIteration has already received one
result, and the remaining expect - 1 outstanding results are drained. -/
def consumerLoop (expect : Nat) : Nat → List Ev
  | 0 => Ev.receive :: List.replicate (expect - 1) Ev.receive
  | k + 1 => Ev.receive :: Ev.dispatch :: consumerLoop expect k

/-- The full main-thread queue trace of _process_consumers (vectorize.py
lines 156-183) for n source items and w workers: priming dispatches
min n w items (lines 160-165; StopIteration during priming jumps straight
to the drain of lines 179-182), then the receive/dispatch loop runs on the
remaining n - w items. -/
def consumerTrace (n w : Nat) : List Ev :=
  if n < w then List.replicate n Ev.dispatch ++ List.replicate n Ev.receive
  else List.replicate w Ev.dispatch ++ consumerLoop w (n - w)

/-- Checks along a queue trace that the number of in-flight items (dispatched
minus received) never exceeds w after any dispatch, and that every receive
has at least one item outstanding (otherwise the get would block forever).
cur is the current in-flight count. -/
def flightOK (w : Nat) : Nat → List Ev → Bool
  | _, [] => true
  | cur, Ev.dispatch :: t => decide (cur + 1 ≤ w) && flightOK w (cur + 1) t
  | cur, Ev.receive :: t => decide (1 ≤ cur) && flightOK w (cur - 1) t

/-- Observable actions of one worker body, used to state when and how often
the init function runs. -/
inductive WAct where
  | initCall : Nat → WAct
  | procItem : WAct
deriving DecidableEq

/-- Whether an action is an invocation of the init function. -/
def isInitCall : WAct → Bool
  | WAct.initCall _ => true
  | WAct.procItem => false

/-- The action sequence of _batch_worker (vectorize.py lines 203-219):
_init_if_needed first, which invokes worker_init exactly when it is
configured (hasInit), then one processing step per item of the shard. -/
def batchWorkerActs (hasInit : Bool) (rank shardLen : Nat) : List WAct :=
  (if hasInit then [WAct.initCall rank] else []) ++ List.replicate shardLen WAct.procItem

/-- The action sequence of _consumer_worker (vectorize.py lines 222-236):
_init_if_needed first, then one processing step per item it consumes before
the sentinel. -/
def consumerWorkerActs (hasInit : Bool) (rank consumed : Nat) : List WAct :=
  (if hasInit then [WAct.initCall rank] else []) ++ List.replicate consumed WAct.procItem

/-- The action sequence of the sequential branch of Vectorizer.process
(vectorize.py lines 63-69): _init_if_needed with rank 0, then each item. -/
def seqActs (hasInit : Bool) (n : Nat) : List WAct :=
  (if hasInit then [WAct.initCall 0] else []) ++ List.replicate n WAct.procItem

/-- The ranks handed to the spawned workers by the loops
`for i in range(self.num_workers)` (vectorize.py lines 99 and 141). -/
def spawnRanks (w : Nat) : List Nat :=
  List.range w

/-- The partitioning as the claim words it, with the LAST shards absorbing
the remainder; written from the claim text, to be compared against
splitSizes, which follows the numpy array_split semantics the code uses. -/
def specSplitSizesLastAbsorb (n w : Nat) : List Nat :=
  List.replicate (w - n % w) (n / w) ++ List.replicate (n % w) (n / w + 1)

/-- Concrete transform: square of a natural number, never raising. -/
def sqFn : Nat → List PyVal → Except String Nat :=
  fun n _ => Except.ok (n * n)

/-- Concrete transform raising on the item with value 5. -/
def boomFn : Nat → List PyVal → Except String Nat :=
  fun n _ => if n = 5 then Except.error "boom" else Except.ok n

/-- Numeric content of an argument value (tuples read as 0). -/
def atomVal : PyVal → Nat
  | PyVal.atom n => n
  | PyVal.tup _ => 0

/-- Concrete transform whose result exposes the extra arguments it was given:
the sum of their numeric contents. -/
def rankProbeFn : Nat → List PyVal → Except String Nat :=
  fun _ args => Except.ok (args.map atomVal).sum

/-- Concrete rank-dependent init function: returns the rank of the worker. -/
def rkInit : Option (Nat → Option PyVal) :=
  some (fun r => some (PyVal.atom r))

/-- The trivial dynamic-mode assignment sending every item to worker 0. -/
def asg0 : Nat → Nat :=
  fun _ => 0

/-- A dynamic-mode assignment realizable with two workers in which the two
items of a length-2 input are picked up in swapped worker order. -/
def asgSwap : Nat → Nat :=
  fun i => 1 - i

/-- Packaging of a fallible worker computation as a process outcome: success
returns the list with the given callback count, a raised exception inside a
worker leaves the main thread blocked forever. -/
def exOutcome (r : Except String (List β)) (k : Nat) : Outcome β :=
  match r with
  | Except.ok res => Outcome.ok res k
  | Except.error _ => Outcome.hang

/-- Map a pure function over a fallible result. -/
def exMap (h : γ → δ) : Except ε γ → Except ε δ
  | Except.error e => Except.error e
  | Except.ok x => Except.ok (h x)

/-- Concatenation of two fallible list results: the first raised exception
wins, as when the loops run one after the other. -/
def exCat : Except ε (List γ) → Except ε (List γ) → Except ε (List γ)
  | Except.error e, _ => Except.error e
  | Except.ok _, Except.error e => Except.error e
  | Except.ok as, Except.ok bs => Except.ok (as ++ bs)

theorem sliceIdx_getLast (s : Nat) : ∀ (c : Nat), 1 ≤ s →
    (sliceIdx c s).getLast? = some (c + s - 1) := by
  induction s with
  | zero => intro c h; omega
  | succ k ih =>
    intro c _
    match k, ih with
    | 0, _ => simp [sliceIdx]
    | j + 1, ih =>
      have hrec := ih (c + 1) (by omega)
      rw [sliceIdx]
      rw [show sliceIdx (c + 1) (j + 1) = (c + 1) :: sliceIdx (c + 2) j from rfl] at hrec ⊢
      rw [List.getLast?_cons_cons, hrec]
      congr 1
      omega

theorem chunksFrom_lasts (ss : List Nat) : ∀ (c : Nat), (∀ s ∈ ss, 1 ≤ s) →
    mapOption List.getLast? (chunksFrom c ss) = some (lastsFrom c ss) := by
  induction ss with
  | nil => intro c _; rfl
  | cons s ss ih =>
    intro c h
    have hs : 1 ≤ s := h s (List.mem_cons_self s ss)
    rw [chunksFrom, mapOption, sliceIdx_getLast s c hs, ih (c + s) (fun x hx => h x (List.mem_cons_of_mem s hx))]
    rfl

theorem chunksFrom_none (ss : List Nat) : ∀ (c : Nat), 0 ∈ ss →
    mapOption List.getLast? (chunksFrom c ss) = none := by
  induction ss with
  | nil => intro c h; cases h
  | cons s ss ih =>
    intro c h
    rcases List.mem_cons.mp h with h0 | h0
    · subst h0
      rfl
    · rw [chunksFrom, mapOption]
      cases hs : (sliceIdx c s).getLast? with
      | none => rfl
      | some v => rw [ih (c + s) h0]

theorem lastsFrom_map_succ (ss : List Nat) : ∀ (c : Nat), (∀ s ∈ ss, 1 ≤ s) →
    (lastsFrom c ss).map (· + 1) = boundsFrom c ss := by
  induction ss with
  | nil => intro c _; rfl
  | cons s ss ih =>
    intro c h
    have hs : 1 ≤ s := h s (List.mem_cons_self s ss)
    rw [lastsFrom, boundsFrom, List.map_cons, ih (c + s) (fun x hx => h x (List.mem_cons_of_mem s hx))]
    congr 1
    omega

theorem splitSizes_length (n w : Nat) (hw : 1 ≤ w) : (splitSizes n w).length = w := by
  have h : n % w < w := Nat.mod_lt n hw
  simp [splitSizes]
  omega

theorem splitSizes_sum (n w : Nat) (hw : 1 ≤ w) : (splitSizes n w).sum = n := by
  have h : n % w < w := Nat.mod_lt n hw
  have hdm : w * (n / w) + n % w = n := Nat.div_add_mod n w
  have hle : (n % w) * (n / w) ≤ w * (n / w) :=
    Nat.mul_le_mul_right _ (Nat.le_of_lt h)
  have hsub : (w - n % w) * (n / w) = w * (n / w) - (n % w) * (n / w) :=
    Nat.sub_mul w (n % w) (n / w)
  have hmul : (n % w) * (n / w + 1) = (n % w) * (n / w) + n % w := by ring
  simp [splitSizes, List.sum_replicate, smul_eq_mul]
  omega

theorem splitSizes_pos (n w : Nat) (hw : 1 ≤ w) (hn : w ≤ n) :
    ∀ s ∈ splitSizes n w, 1 ≤ s := by
  intro s hs
  have hq : 1 ≤ n / w := (Nat.one_le_div_iff hw).mpr hn
  rcases List.mem_append.mp hs with h | h
  · have := (List.eq_of_mem_replicate h)
    omega
  · have := (List.eq_of_mem_replicate h)
    omega

theorem splitBoundaries_eq_some (n w : Nat) (hpos : ∀ s ∈ splitSizes n w, 1 ≤ s) :
    splitBoundaries n w = some (0 :: boundsFrom 0 (splitSizes n w)) := by
  rw [splitBoundaries, arraySplit, chunksFrom_lasts _ _ hpos]
  show some (0 :: (lastsFrom 0 (splitSizes n w)).map (· + 1)) = _
  rw [lastsFrom_map_succ _ _ hpos]

theorem slices_eq_itemChunks (ss : List Nat) : ∀ (c : Nat) (xs : List α),
    ((c :: boundsFrom c ss).zip (boundsFrom c ss)).map
      (fun p => (xs.drop p.1).take (p.2 - p.1)) = itemChunksFrom c xs ss := by
  induction ss with
  | nil => intro c xs; rfl
  | cons s ss ih =>
    intro c xs
    rw [boundsFrom, itemChunksFrom]
    rw [show ((c :: (c + s) :: boundsFrom (c + s) ss).zip ((c + s) :: boundsFrom (c + s) ss))
        = (c, c + s) :: (((c + s) :: boundsFrom (c + s) ss).zip (boundsFrom (c + s) ss)) from rfl]
    rw [List.map_cons, ih (c + s) xs]
    congr 2
    omega

theorem itemChunks_concat (ss : List Nat) : ∀ (c : Nat) (xs : List α),
    concatAll (itemChunksFrom c xs ss) = (xs.drop c).take ss.sum := by
  induction ss with
  | nil => intro c xs; simp [itemChunksFrom, concatAll]
  | cons s ss ih =>
    intro c xs
    rw [itemChunksFrom, concatAll, ih (c + s) xs, List.sum_cons, List.take_add]
    congr 1
    rw [List.drop_drop]

theorem mapExcept_append (g : γ → Except ε δ) (xs ys : List γ) :
    mapExcept g (xs ++ ys) = exCat (mapExcept g xs) (mapExcept g ys) := by
  induction xs with
  | nil =>
    rw [List.nil_append, show mapExcept g ([] : List γ) = Except.ok ([] : List δ) from rfl]
    cases h : mapExcept g ys with
    | error e => rfl
    | ok bs => simp [exCat]
  | cons x xs ih =>
    rw [List.cons_append, mapExcept, mapExcept]
    cases hx : g x with
    | error e => rfl
    | ok y =>
      rw [ih]
      cases h1 : mapExcept g xs with
      | error e => rfl
      | ok as =>
        cases h2 : mapExcept g ys with
        | error e => rfl
        | ok bs => simp [exCat]

theorem mapExcept_concatAll (g : γ → Except ε δ) (ls : List (List γ)) :
    exMap concatAll (mapExcept (fun l => mapExcept g l) ls) = mapExcept g (concatAll ls) := by
  induction ls with
  | nil => rfl
  | cons l ls ih =>
    rw [concatAll, mapExcept_append, mapExcept]
    cases h1 : mapExcept g l with
    | error e => rfl
    | ok as =>
      rw [← ih]
      cases h2 : mapExcept (fun l => mapExcept g l) ls with
      | error e => rfl
      | ok bss => simp [exMap, exCat, concatAll]

theorem mapExceptIdx_congr (gI : Nat → γ → Except ε δ) (k : γ → Except ε δ)
    (h : ∀ i x, gI i x = k x) : ∀ (i : Nat) (xs : List γ),
    mapExceptIdx gI i xs = mapExcept k xs := by
  intro i xs
  induction xs generalizing i with
  | nil => rfl
  | cons x xs ih =>
    rw [mapExceptIdx, mapExcept, h i x, ih (i + 1)]

theorem mem_concatAll (x : γ) : ∀ (ls : List (List γ)), x ∈ concatAll ls → ∃ l ∈ ls, x ∈ l := by
  intro ls
  induction ls with
  | nil => intro h; cases h
  | cons l ls ih =>
    intro h
    rw [concatAll] at h
    rcases List.mem_append.mp h with h1 | h1
    · exact ⟨l, List.mem_cons_self l ls, h1⟩
    · obtain ⟨l2, hl2, hx⟩ := ih h1
      exact ⟨l2, List.mem_cons_of_mem l hl2, hx⟩

theorem mapExcept_error (g : γ → Except ε δ) (x : γ) (h : ∃ e, g x = Except.error e) :
    ∀ (xs : List γ), x ∈ xs → ∃ e, mapExcept g xs = Except.error e := by
  intro xs
  induction xs with
  | nil => intro hx; cases hx
  | cons y ys ih =>
    intro hx
    rw [mapExcept]
    rcases List.mem_cons.mp hx with h1 | h1
    · subst h1
      obtain ⟨e, he⟩ := h
      rw [he]
      exact ⟨e, rfl⟩
    · cases hy : g y with
      | error e2 => exact ⟨e2, rfl⟩
      | ok v =>
        obtain ⟨e2, he2⟩ := ih h1
        rw [he2]
        exact ⟨e2, rfl⟩

theorem mapExceptIdx_error (gI : Nat → γ → Except ε δ) (x : γ)
    (h : ∀ i, ∃ e, gI i x = Except.error e) :
    ∀ (xs : List γ), x ∈ xs → ∀ (i : Nat), ∃ e, mapExceptIdx gI i xs = Except.error e := by
  intro xs
  induction xs with
  | nil => intro hx; cases hx
  | cons y ys ih =>
    intro hx i
    rw [mapExceptIdx]
    rcases List.mem_cons.mp hx with h1 | h1
    · subst h1
      obtain ⟨e, he⟩ := h i
      rw [he]
      exact ⟨e, rfl⟩
    · cases hy : gI i y with
      | error e2 => exact ⟨e2, rfl⟩
      | ok v =>
        obtain ⟨e2, he2⟩ := ih h1 (i + 1)
        rw [he2]
        exact ⟨e2, rfl⟩

theorem batchRun_eq (f : α → List PyVal → Except String β)
    (init : Option (Nat → Option PyVal)) (cb : Bool) (args : List PyVal)
    (items : List α) (nw : Int) (h1 : 1 ≤ nw) (h2 : nw.toNat ≤ items.length)
    (hA : ∀ r, combine_args args (init_if_needed init r)
            = combine_args args (init_if_needed init 0)) :
    batchRun f init cb args items nw =
      exOutcome (mapExcept (fun it => f it (combine_args args (init_if_needed init 0))) items)
        (if cb then items.length else 0) := by
  have hw0 : ¬ nw ≤ 0 := by omega
  have hw1 : 1 ≤ nw.toNat := by omega
  have hpos := splitSizes_pos items.length nw.toNat hw1 h2
  rw [batchRun, if_neg hw0, splitBoundaries_eq_some items.length nw.toNat hpos]
  dsimp only
  rw [show (0 :: boundsFrom 0 (splitSizes items.length nw.toNat)).tail
      = boundsFrom 0 (splitSizes items.length nw.toNat) from rfl]
  rw [slices_eq_itemChunks (splitSizes items.length nw.toNat) 0 items]
  rw [mapExceptIdx_congr
        (fun rank shard => batchWorkerBundle f init args rank shard)
        (fun shard => mapExcept (fun it => f it (combine_args args (init_if_needed init 0))) shard)
        (by
          intro i x
          show batchWorkerBundle f init args i x
            = mapExcept (fun it => f it (combine_args args (init_if_needed init 0))) x
          rw [batchWorkerBundle]
          congr 1
          funext it
          rw [hA i])
        0 (itemChunksFrom 0 items (splitSizes items.length nw.toNat))]
  have hconc : concatAll (itemChunksFrom 0 items (splitSizes items.length nw.toNat)) = items := by
    rw [itemChunks_concat, splitSizes_sum items.length nw.toNat hw1, List.drop_zero,
      List.take_length]
  have hM := mapExcept_concatAll
    (fun it => f it (combine_args args (init_if_needed init 0)))
    (itemChunksFrom 0 items (splitSizes items.length nw.toNat))
  rw [hconc] at hM
  rw [← hM]
  cases hval : mapExcept
      (fun l => mapExcept (fun it => f it (combine_args args (init_if_needed init 0))) l)
      (itemChunksFrom 0 items (splitSizes items.length nw.toNat)) with
  | error e => rfl
  | ok bundles => rfl

theorem consumerRun_eq (f : α → List PyVal → Except String β)
    (init : Option (Nat → Option PyVal)) (cb : Bool) (args : List PyVal)
    (items : List α) (nw : Int) (asg : Nat → Nat) (h1 : 1 ≤ nw)
    (hA : ∀ r, combine_args args (init_if_needed init r)
            = combine_args args (init_if_needed init 0)) :
    consumerRun f init cb args items nw asg =
      exOutcome (mapExcept (fun it => f it (combine_args args (init_if_needed init 0))) items)
        (if cb then items.length else 0) := by
  have hw0 : ¬ nw ≤ 0 := by omega
  rw [consumerRun, if_neg hw0]
  rw [mapExceptIdx_congr
        (fun idx it => f it (combine_args args (init_if_needed init (asg idx))))
        (fun it => f it (combine_args args (init_if_needed init 0)))
        (fun i x => by
          show f x (combine_args args (init_if_needed init (asg i)))
            = f x (combine_args args (init_if_needed init 0))
          rw [hA (asg i)])
        0 items]
  cases hval : mapExcept (fun it => f it (combine_args args (init_if_needed init 0))) items with
  | error e => rfl
  | ok res => rfl

theorem flightOK_replicate_receive (w : Nat) : ∀ (m cur : Nat), m ≤ cur →
    flightOK w cur (List.replicate m Ev.receive) = true := by
  intro m
  induction m with
  | zero => intro cur _; rfl
  | succ k ih =>
    intro cur h
    rw [List.replicate_succ, flightOK, ih (cur - 1) (by omega)]
    simp
    omega

theorem flightOK_replicate_dispatch (w : Nat) (t : List Ev) : ∀ (m cur : Nat),
    cur + m ≤ w →
    flightOK w cur (List.replicate m Ev.dispatch ++ t) = flightOK w (cur + m) t := by
  intro m
  induction m with
  | zero => intro cur _; rfl
  | succ k ih =>
    intro cur h
    rw [List.replicate_succ, List.cons_append, flightOK, ih (cur + 1) (by omega)]
    have hc : cur + 1 ≤ w := by omega
    simp [hc]
    congr 1
    omega

theorem flightOK_consumerLoop (w : Nat) (hw : 1 ≤ w) : ∀ (k : Nat),
    flightOK w w (consumerLoop w k) = true := by
  intro k
  induction k with
  | zero =>
    rw [consumerLoop, flightOK, flightOK_replicate_receive w (w - 1) (w - 1) (by omega)]
    simp
    omega
  | succ j ih =>
    rw [consumerLoop, flightOK, flightOK]
    have h1 : w - 1 + 1 ≤ w := by omega
    have h2 : w - 1 + 1 = w := by omega
    simp [h1, h2, hw, ih]

theorem splitSizes_one (n : Nat) : splitSizes n 1 = [n] := by
  simp [splitSizes, Nat.mod_one, Nat.div_one]

theorem countP_replicate_procItem (k : Nat) :
    (List.replicate k WAct.procItem).countP isInitCall = 0 := by
  induction k with
  | zero => rfl
  | succ j ih =>
    rw [List.replicate_succ, List.countP_cons, ih]
    simp [isInitCall]

/-- Claim C1, code bug: the claim promises that process returns the list of
the N mapped results for every worker count W ≥ 0, but for an indexable input
of length N = 1 with W = 2 workers (any N < W, including the default
W = cpu count on a short list) the shard boundary computation of
_process_batches takes a[-1] of an empty np.array_split chunk, raises
IndexError, and the call returns nothing. -/
theorem c1_small_input_raises :
    (Vectorizer.mkInit sqFn none false 2 8).process false [3] [] true asg0
      = Outcome.err "IndexError" := rfl

/-- Claim C2, code bug: the claim (and the constructor docstring of
callback_func) promises one callback invocation per item in every mode, but
the sequential branch of process never invokes callback_func at all: on a
3-item input the sequential mode reports 0 invocations while the batch mode
with the same configuration reports 3. -/
theorem c2_sequential_callback_skipped :
    (Vectorizer.mkInit sqFn none true 0 8).process false [1, 2, 3] [] true asg0
      = Outcome.ok [1, 4, 9] 0
    ∧ (Vectorizer.mkInit sqFn none true 1 8).process false [1, 2, 3] [] true asg0
      = Outcome.ok [1, 4, 9] 3 := ⟨rfl, rfl⟩

/-- Claim C3, counterexample: the claim says the LAST shards absorb the
remainder, but np.array_split gives the larger shards FIRST (N = 10, W = 3
yields sizes 4,3,3, not 3,3,4); and the claim says that for N < W the call
completes normally with empty shards, but the boundary computation raises
IndexError instead (N = 1, W = 2 shown). -/
theorem c3_counterexample :
    splitSizes 10 3 ≠ specSplitSizesLastAbsorb 10 3
    ∧ splitBoundaries 1 2 = none := ⟨by decide, rfl⟩

/-- Claim C3, amended: for 1 ≤ W ≤ N the index range is split into W
contiguous shards of near-equal size (each of size N/W or N/W + 1, the FIRST
N mod W shards absorbing the remainder, per the definition of splitSizes),
none empty, the sizes summing to N, and the boundary computation succeeds;
for N < W the boundary computation raises IndexError and the call fails
before spawning (see the counterexample). -/
theorem c3_amended (n w : Nat) (hw : 1 ≤ w) (hn : w ≤ n) :
    (splitSizes n w).length = w
    ∧ (splitSizes n w).sum = n
    ∧ 1 ≤ n / w
    ∧ ((splitSizes n w).all fun s => decide (n / w ≤ s) && decide (s ≤ n / w + 1)) = true
    ∧ splitBoundaries n w = some (0 :: boundsFrom 0 (splitSizes n w)) := by
  refine ⟨splitSizes_length n w hw, splitSizes_sum n w hw,
    (Nat.one_le_div_iff hw).mpr hn, ?_,
    splitBoundaries_eq_some n w (splitSizes_pos n w hw hn)⟩
  rw [List.all_eq_true]
  intro s hs
  simp only [splitSizes] at hs
  rcases List.mem_append.mp hs with h | h
  · have hv := List.eq_of_mem_replicate h
    subst hv
    simp
  · have hv := List.eq_of_mem_replicate h
    subst hv
    simp

/-- Claim C3, witness for the amended theorem, at N = 10, W = 3. -/
theorem c3_amended_witness :
    (splitSizes 10 3).length = 3
    ∧ (splitSizes 10 3).sum = 10
    ∧ 1 ≤ 10 / 3
    ∧ ((splitSizes 10 3).all fun s => decide (10 / 3 ≤ s) && decide (s ≤ 10 / 3 + 1)) = true
    ∧ splitBoundaries 10 3 = some (0 :: boundsFrom 0 (splitSizes 10 3)) :=
  c3_amended 10 3 (by decide) (by decide)

/-- Claim C4, counterexample: a Vectorizer constructed with num_workers = -2
stores -2 with no error of any kind; with a non-indexable input a negative
worker count makes process block forever instead of failing fast; and a
process call made while a previous shutdown is still pending (pending = true)
proceeds normally instead of failing fast. -/
theorem c4_counterexample :
    (Vectorizer.mkInit sqFn none false (-2) 8).num_workers = -2
    ∧ consumerRun sqFn none false [] [7] (-2) asg0 = Outcome.hang
    ∧ (Vectorizer.mkInit sqFn none false 1 8).process true [7] [] false asg0
      = Outcome.ok [49] 0 := ⟨rfl, rfl, rfl⟩

/-- Claim C4, amended: no validation is performed anywhere.  A negative
worker count other than the sentinel -1 is stored verbatim by the
constructor; a process call with it raises ValueError from np.array_split in
static mode (before spawning anything) and blocks forever in dynamic mode;
and the result of process is independent of whether a previous run has been
released, because process never checks the stored shutdown handle. -/
theorem c4_amended (α β : Type) (f : α → List PyVal → Except String β)
    (wi : Option (Nat → Option PyVal)) (cb : Bool) (args : List PyVal)
    (items : List α) (asg : Nat → Nat) (cpu : Nat) (nw : Int)
    (v : Vectorizer α β) (p1 p2 : Bool) (ix : Bool) (hneg : nw < -1) :
    (Vectorizer.mkInit f wi cb nw cpu).num_workers = nw
    ∧ batchRun f wi cb args items nw = Outcome.err "ValueError"
    ∧ consumerRun f wi cb args items nw asg = Outcome.hang
    ∧ v.process p1 items args ix asg = v.process p2 items args ix asg := by
  have hne : nw ≠ -1 := by omega
  have hle : nw ≤ 0 := by omega
  refine ⟨?_, ?_, ?_, rfl⟩
  · simp [Vectorizer.mkInit, hne]
  · rw [batchRun, if_pos hle]
  · rw [consumerRun, if_pos hle]

/-- Claim C4, witness for the amended theorem, at num_workers = -3. -/
theorem c4_amended_witness :
    (Vectorizer.mkInit sqFn none false (-3) 8).num_workers = -3
    ∧ batchRun sqFn none false [] [1, 2] (-3) = Outcome.err "ValueError"
    ∧ consumerRun sqFn none false [] [1, 2] (-3) asg0 = Outcome.hang
    ∧ (Vectorizer.mkInit sqFn none false 1 8).process true [1, 2] [] true asg0
      = (Vectorizer.mkInit sqFn none false 1 8).process false [1, 2] [] true asg0 :=
  c4_amended Nat Nat sqFn none false [] [1, 2] asg0 8 (-3)
    (Vectorizer.mkInit sqFn none false 1 8) true false true (by decide)

/-- Claim C5, counterexample: with one worker and a transform raising on the
item with index 5, the process call does not fail: it blocks forever, because
the dead worker never fills its result queue, so no subsequent call ever
happens — contradicting the claimed clean failure and reuse. -/
theorem c5_counterexample :
    (Vectorizer.mkInit boomFn none false 1 8).process false [0, 1, 2, 3, 4, 5] [] true asg0
      = Outcome.hang := rfl

/-- Claim C5, amended: if the transform raises on some item of the input
(whatever extra arguments it is handed), the process call never returns in
any worker-based mode — in static mode for every worker count 1 ≤ W ≤ N and
in dynamic mode for every worker count W ≥ 1 and every item-to-worker
assignment, the raising worker dies without filling its queue and the main
thread blocks forever on the next queue read — with no partial results but
also no teardown, so no subsequent call happens.  (In static mode with
N < W the call instead raises IndexError before spawning, the C1 bug.)
Only in the sequential mode (W = 0) does the exception propagate to the
caller, leaving the Vectorizer untouched and reusable. -/
theorem c5_amended (α β : Type) (f : α → List PyVal → Except String β)
    (init : Option (Nat → Option PyVal)) (cb : Bool) (args : List PyVal)
    (items : List α) (bad : α) (nw nwc : Int) (asg : Nat → Nat) (e : String)
    (hbad : bad ∈ items)
    (herr : ∀ a : List PyVal, ∃ e2, f bad a = Except.error e2)
    (h1 : 1 ≤ nw) (h2 : nw.toNat ≤ items.length) (h1c : 1 ≤ nwc)
    (hseq : mapExcept (fun it => f it (combine_args args (init_if_needed init 0))) items
          = Except.error e) :
    batchRun f init cb args items nw = Outcome.hang
    ∧ consumerRun f init cb args items nwc asg = Outcome.hang
    ∧ seqRun f init cb args items = Outcome.err e := by
  refine ⟨?_, ?_, ?_⟩
  · have hw0 : ¬ nw ≤ 0 := by omega
    have hw1 : 1 ≤ nw.toNat := by omega
    have hpos := splitSizes_pos items.length nw.toNat hw1 h2
    rw [batchRun, if_neg hw0, splitBoundaries_eq_some items.length nw.toNat hpos]
    dsimp only
    rw [show (0 :: boundsFrom 0 (splitSizes items.length nw.toNat)).tail
        = boundsFrom 0 (splitSizes items.length nw.toNat) from rfl]
    rw [slices_eq_itemChunks (splitSizes items.length nw.toNat) 0 items]
    have hconc : concatAll (itemChunksFrom 0 items (splitSizes items.length nw.toNat))
        = items := by
      rw [itemChunks_concat, splitSizes_sum items.length nw.toNat hw1, List.drop_zero,
        List.take_length]
    have hbad2 : bad ∈ concatAll (itemChunksFrom 0 items (splitSizes items.length nw.toNat)) := by
      rw [hconc]
      exact hbad
    obtain ⟨chunk, hchunk, hin⟩ := mem_concatAll bad _ hbad2
    have hch : ∀ i, ∃ e2,
        (fun rank shard => batchWorkerBundle f init args rank shard) i chunk
          = Except.error e2 := by
      intro i
      show ∃ e2, batchWorkerBundle f init args i chunk = Except.error e2
      exact mapExcept_error _ bad (herr _) chunk hin
    obtain ⟨e2, he2⟩ := mapExceptIdx_error _ chunk hch _ hchunk 0
    rw [he2]
  · have hw0 : ¬ nwc ≤ 0 := by omega
    rw [consumerRun, if_neg hw0]
    have hch : ∀ i, ∃ e2,
        (fun idx it => f it (combine_args args (init_if_needed init (asg idx)))) i bad
          = Except.error e2 := by
      intro i
      show ∃ e2, f bad (combine_args args (init_if_needed init (asg i))) = Except.error e2
      exact herr _
    obtain ⟨e2, he2⟩ := mapExceptIdx_error
      (fun idx it => f it (combine_args args (init_if_needed init (asg idx)))) bad hch items hbad 0
    rw [he2]
  · rw [seqRun, hseq]

/-- Claim C5, witness for the amended theorem: boomFn raises on the item
with value (and index) 5 of [0,1,2,3,4,5] whatever its extra arguments;
static mode with W = 2 and dynamic mode with W = 3 both hang, the sequential
mode raises. -/
theorem c5_amended_witness :
    batchRun boomFn none false [] [0, 1, 2, 3, 4, 5] 2 = Outcome.hang
    ∧ consumerRun boomFn none false [] [0, 1, 2, 3, 4, 5] 3 asg0 = Outcome.hang
    ∧ seqRun boomFn none false [] [0, 1, 2, 3, 4, 5] = Outcome.err "boom" :=
  c5_amended Nat Nat boomFn none false [] [0, 1, 2, 3, 4, 5] 5 2 3 asg0 "boom"
    (by decide) (fun a => ⟨"boom", rfl⟩) (by decide) (by decide) (by decide) rfl

/-- Claim C6, confirmed: along the whole main-thread queue trace of
_process_consumers for any stream length n and any worker count w ≥ 1, the
number of in-flight items never exceeds w after any dispatch (at most w are
dispatched during priming, and afterwards each dispatch is preceded by a
receive), and every receive has an outstanding item. -/
theorem c6_in_flight_bound (n w : Nat) (hw : 1 ≤ w) :
    flightOK w 0 (consumerTrace n w) = true := by
  rw [consumerTrace]
  by_cases h : n < w
  · rw [if_pos h, flightOK_replicate_dispatch w _ n 0 (by omega)]
    exact flightOK_replicate_receive w n (0 + n) (by omega)
  · rw [if_neg h, flightOK_replicate_dispatch w _ w 0 (by omega)]
    rw [show 0 + w = w from by omega]
    exact flightOK_consumerLoop w hw (n - w)

/-- Claim C6, witness at n = 7, w = 2. -/
theorem c6_in_flight_bound_witness :
    flightOK 2 0 (consumerTrace 7 2) = true :=
  c6_in_flight_bound 7 2 (by decide)

/-- Claim C7, counterexample: with a rank-dependent init function the two
modes can return different ordered outputs (each worker merges the init
result of its own rank, and the dynamic item-to-worker assignment is not the
shard assignment); and for 1 = N < W = 2 the static mode raises IndexError
while the dynamic mode succeeds, so the outputs also differ there. -/
theorem c7_counterexample :
    batchRun rankProbeFn rkInit false [] [10, 20] 2
      ≠ consumerRun rankProbeFn rkInit false [] [10, 20] 2 asgSwap
    ∧ batchRun sqFn none false [] [3] 2 = Outcome.err "IndexError"
    ∧ consumerRun sqFn none false [] [3] 2 asg0 = Outcome.ok [9] 0 :=
  ⟨by decide, rfl, rfl⟩

/-- Claim C7, amended: for every worker count 1 ≤ W ≤ N and every dynamic
item-to-worker assignment, the static mode and the dynamic mode return
identical ordered output, provided the merged extra arguments do not depend
on the worker rank (in particular whenever no init function is configured). -/
theorem c7_amended (α β : Type) (f : α → List PyVal → Except String β)
    (init : Option (Nat → Option PyVal)) (cb : Bool) (args : List PyVal)
    (items : List α) (nw : Int) (asg : Nat → Nat)
    (h1 : 1 ≤ nw) (h2 : nw.toNat ≤ items.length)
    (hA : ∀ r, combine_args args (init_if_needed init r)
            = combine_args args (init_if_needed init 0)) :
    batchRun f init cb args items nw = consumerRun f init cb args items nw asg := by
  rw [batchRun_eq f init cb args items nw h1 h2 hA,
    consumerRun_eq f init cb args items nw asg h1 hA]

/-- Claim C7, witness for the amended theorem, at W = 2, N = 3, no init. -/
theorem c7_amended_witness :
    batchRun sqFn none false [] [1, 2, 3] 2
      = consumerRun sqFn none false [] [1, 2, 3] 2 asg0 :=
  c7_amended Nat Nat sqFn none false [] [1, 2, 3] 2 asg0 (by decide) (by decide)
    (fun _ => rfl)

/-- Claim C8, confirmed: the merged argument list is always the call-site
arguments followed by the init-derived arguments; when no init function is
configured nothing is added; and a batch worker applies the one merged list
it computed at start-up to every item of its shard. -/
theorem c8_arg_merge (α β : Type) (f : α → List PyVal → Except String β)
    (init : Option (Nat → Option PyVal)) (a : List PyVal) (b : Option PyVal)
    (r : Nat) (shard : List α) :
    combine_args a b = a ++ combine_args [] b
    ∧ combine_args a (init_if_needed none r) = a
    ∧ combine_args a (init_if_needed init r) = a ++ combine_args [] (init_if_needed init r)
    ∧ batchWorkerBundle f init a r shard
      = mapExcept (fun it => f it (a ++ combine_args [] (init_if_needed init r))) shard := by
  have hmain : ∀ (x : List PyVal) (y : Option PyVal),
      combine_args x y = x ++ combine_args [] y := by
    intro x y
    cases y with
    | none => simp [combine_args]
    | some v =>
      cases v with
      | atom m => simp [combine_args]
      | tup xs => simp [combine_args]
  refine ⟨hmain a b, rfl, hmain a _, ?_⟩
  rw [batchWorkerBundle]
  congr 1
  funext it
  rw [hmain a (init_if_needed init r)]

/-- Claim C9, confirmed: every worker body — batch, consumer, and the
sequential branch (with rank 0) — invokes the configured init function
exactly once, as its very first action before processing any item, and never
once per item (the count is 1 whatever the number of items); when the init
function is absent it is never invoked; and the spawn loops hand the workers
the pairwise distinct ranks 0..W-1. -/
theorem c9_init_once_per_worker (r k w : Nat) :
    batchWorkerActs true r k = WAct.initCall r :: List.replicate k WAct.procItem
    ∧ (batchWorkerActs true r k).countP isInitCall = 1
    ∧ (batchWorkerActs false r k).countP isInitCall = 0
    ∧ consumerWorkerActs true r k = WAct.initCall r :: List.replicate k WAct.procItem
    ∧ (consumerWorkerActs true r k).countP isInitCall = 1
    ∧ seqActs true k = WAct.initCall 0 :: List.replicate k WAct.procItem
    ∧ spawnRanks w = List.range w
    ∧ (spawnRanks w).Nodup := by
  refine ⟨rfl, ?_, ?_, rfl, ?_, rfl, rfl, List.nodup_range w⟩
  · rw [show batchWorkerActs true r k
        = WAct.initCall r :: List.replicate k WAct.procItem from rfl,
      List.countP_cons, countP_replicate_procItem]
    simp [isInitCall]
  · rw [show batchWorkerActs false r k = List.replicate k WAct.procItem from rfl,
      countP_replicate_procItem]
  · rw [show consumerWorkerActs true r k
        = WAct.initCall r :: List.replicate k WAct.procItem from rfl,
      List.countP_cons, countP_replicate_procItem]
    simp [isInitCall]

/-- Claim C10, counterexample: an init function CAN supply a single
tuple-valued extra argument, by returning a 1-tuple whose only element is the
tuple: _combine_args unpacks the outer tuple and appends the inner tuple as
one trailing argument. -/
theorem c10_counterexample :
    combine_args [] (some (PyVal.tup [PyVal.tup [PyVal.atom 1]]))
      = [PyVal.tup [PyVal.atom 1]]
    ∧ isTup (PyVal.tup [PyVal.atom 1]) = true := ⟨rfl, rfl⟩

/-- Claim C10, amended: a tuple returned by the init function is spread as
individual trailing arguments, any non-tuple non-None value is appended as a
single trailing argument, and a directly returned tuple is always unpacked —
so the only way to supply a single tuple-valued extra argument is to wrap the
tuple in a 1-tuple, which the code does allow. -/
theorem c10_amended (a xs : List PyVal) (v t : PyVal) (hv : isTup v = false) :
    combine_args a (some (PyVal.tup xs)) = a ++ xs
    ∧ combine_args a (some v) = a ++ [v]
    ∧ combine_args a (some (PyVal.tup [t])) = a ++ [t] := by
  refine ⟨rfl, ?_, rfl⟩
  cases v with
  | atom m => rfl
  | tup ys => exact absurd hv (by rw [isTup]; intro hc; cases hc)

/-- Claim C10, witness for the amended theorem, wrapping the empty tuple. -/
theorem c10_amended_witness :
    combine_args [] (some (PyVal.tup [PyVal.atom 3, PyVal.atom 4]))
      = [] ++ [PyVal.atom 3, PyVal.atom 4]
    ∧ combine_args [] (some (PyVal.atom 2)) = [] ++ [PyVal.atom 2]
    ∧ combine_args [] (some (PyVal.tup [PyVal.tup []])) = [] ++ [PyVal.tup []] :=
  c10_amended [] [PyVal.atom 3, PyVal.atom 4] (PyVal.atom 2) (PyVal.tup []) rfl

end Vectorize
